import Mathlib

/-!
Verification development for the `AsphaltDBParser` page parser.

The parsing core of `src/AsphaltDBParser.py` is embedded shallowly:
each Python helper becomes a Lean function over `List Char` (Python `str`
values), Python's `int`/`float` results of `parse_number` become the sum
type `PyNum` (decimal values are modelled exactly as rationals), and the
`ValueError`s raised by the parser become an explicit `Except` error type.
Python's `\d` character class and `int()` digit alphabet are modelled on
ASCII digits.
-/

namespace Asphalt

/-- Decimal digit (Python `\d`, modelled on ASCII digits). -/
def isDig (c : Char) : Bool := '0' ≤ c && c ≤ '9'

/-- Whitespace as matched by Python's `\s` on `str` (the Unicode
whitespace set). -/
def pyIsSpace (c : Char) : Bool :=
  c = ' ' || c = '\t' || c = '\n' || c = '\x0b' || c = '\x0c' || c = '\r' ||
  c = '\x1c' || c = '\x1d' || c = '\x1e' || c = '\x1f' || c = '\x85' ||
  c = '\xa0' || c = '\u1680' ||
  ('\u2000' ≤ c && c ≤ '\u200a') ||
  c = '\u2028' || c = '\u2029' || c = '\u202f' || c = '\u205f' || c = '\u3000'

/-- Numeric value of an ASCII digit. -/
def digVal (c : Char) : ℕ := c.toNat - '0'.toNat

/-- `int()` of a string of ASCII digits. -/
def natOfDigits (l : List Char) : ℕ :=
  l.foldl (fun acc c => 10 * acc + digVal c) 0

/-- `int()` of a digit string, as an integer. -/
def intOfDigits (l : List Char) : ℤ := (natOfDigits l : ℤ)

/-- `pat` is a literal prefix of `s` (Python `str.startswith`). -/
def litAt : List Char → List Char → Bool
  | [], _ => true
  | _ :: _, [] => false
  | p :: ps, c :: cs => p = c && litAt ps cs

/-- Python `str.strip()`: drop whitespace from both ends. -/
def pyStrip (l : List Char) : List Char :=
  ((l.dropWhile pyIsSpace).reverse.dropWhile pyIsSpace).reverse

/-- Collapse every run of whitespace into a single `' '`
(the effect of `re.sub(r"\s+", " ", line)`). `prev` records whether the
previous character was part of a whitespace run. -/
def collapseWs : Bool → List Char → List Char
  | _, [] => []
  | prev, c :: rest =>
    if pyIsSpace c then
      if prev then collapseWs true rest else ' ' :: collapseWs true rest
    else c :: collapseWs false rest

/-- `normalize_line`: replace NBSP by a space, collapse whitespace runs,
strip. -/
def normalize_line (l : List Char) : List Char :=
  pyStrip (collapseWs false (l.map fun c => if c = '\xa0' then ' ' else c))

/-- Line terminators recognised by Python `str.splitlines`. -/
def isLineTerm (c : Char) : Bool :=
  c = '\n' || c = '\r' || c = '\x0b' || c = '\x0c' ||
  c = '\x1c' || c = '\x1d' || c = '\x1e' || c = '\x85' ||
  c = '\u2028' || c = '\u2029'

/-- Python `str.splitlines` (with `\r\n` treated as one terminator and no
trailing empty line). -/
def pySplitlinesAux (acc : List Char) : List Char → List (List Char)
  | [] => if acc = [] then [] else [acc.reverse]
  | '\r' :: '\n' :: rest => acc.reverse :: pySplitlinesAux [] rest
  | c :: rest =>
    if isLineTerm c then acc.reverse :: pySplitlinesAux [] rest
    else pySplitlinesAux (c :: acc) rest

def pySplitlines (l : List Char) : List (List Char) := pySplitlinesAux [] l

/-- `[normalize_line(l) for l in text.splitlines() if normalize_line(l)]`. -/
def toLines (text : List Char) : List (List Char) :=
  ((pySplitlines text).map normalize_line).filter (· ≠ [])

/-- Result of `parse_number`: a Python `int` or `float` (the decimal value
of a `float` is modelled exactly as a rational). -/
inductive PyNum where
  | int (z : ℤ)
  | real (q : ℚ)
deriving Repr, DecidableEq

/-- `float(v)` applied to a `parse_number` result. -/
def PyNum.toRat : PyNum → ℚ
  | .int z => mkRat z 1
  | .real q => q

/-- `int(v)` applied to a `parse_number` result (truncation toward
zero, which is what `Int.tdiv` computes). -/
def PyNum.trunc : PyNum → ℤ
  | .int z => z
  | .real q => q.num.tdiv (q.den : ℤ)

/-- `re.fullmatch(r"\d{1,3}(\.\d{3})+", s)`: the mandatory repeated
`.ddd` groups after the leading 1–3 digits. -/
def dotGroups : List Char → Bool
  | '.' :: a :: b :: c :: rest =>
    isDig a && isDig b && isDig c && (rest = [] || dotGroups rest)
  | _ => false

def matchThousandDot (s : List Char) : Bool :=
  let d := s.takeWhile isDig
  let r := s.dropWhile isDig
  decide (1 ≤ d.length) && decide (d.length ≤ 3) && dotGroups r

/-- `re.fullmatch(r"\d+,\d+", s)`. -/
def matchDigitsCommaDigits (s : List Char) : Bool :=
  let d := s.takeWhile isDig
  let r := s.dropWhile isDig
  match d, r with
  | _ :: _, ',' :: r2 => !r2.isEmpty && r2.all isDig
  | _, _ => false

/-- `re.fullmatch(r"\d+\.\d+", s)`. -/
def matchDigitsDotDigits (s : List Char) : Bool :=
  let d := s.takeWhile isDig
  let r := s.dropWhile isDig
  match d, r with
  | _ :: _, '.' :: r2 => !r2.isEmpty && r2.all isDig
  | _, _ => false

/-- Exact value of `float(left + "." + right)` for digit strings:
the rational `left.right` with denominator `10 ^ |right|`. -/
def decimalVal (left right : List Char) : ℚ :=
  mkRat ((natOfDigits left * 10 ^ right.length + natOfDigits right : ℕ) : ℤ)
    (10 ^ right.length)

/-- Core of Python `int(str)`: digits optionally separated by single
underscores (ASCII digits). -/
def digitsUndAux (acc : ℕ) : List Char → Option ℕ
  | [] => some acc
  | '_' :: c :: rest =>
    if isDig c then digitsUndAux (10 * acc + digVal c) rest else none
  | c :: rest =>
    if isDig c then digitsUndAux (10 * acc + digVal c) rest else none

def digitsUnd : List Char → Option ℕ
  | [] => none
  | c :: rest => if isDig c then digitsUndAux (digVal c) rest else none

/-- Python `int(str)` on an arbitrary string: optional surrounding
whitespace, optional sign, digits with single interior underscores;
`none` models the `ValueError` it raises otherwise. -/
def pyIntOfStr (l : List Char) : Option ℤ :=
  match pyStrip l with
  | '+' :: r => (digitsUnd r).map (fun n => (n : ℤ))
  | '-' :: r => (digitsUnd r).map (fun n => -(n : ℤ))
  | r => (digitsUnd r).map (fun n => (n : ℤ))

/-- Rules 3 and 4 of `parse_number` (plain decimal, then plain integer),
and the final failure. -/
def plainNumRules (s : List Char) : Option PyNum :=
  if matchDigitsDotDigits s then
    some (.real (decimalVal (s.takeWhile (· ≠ '.')) ((s.dropWhile (· ≠ '.')).drop 1)))
  else if !s.isEmpty && s.all isDig then some (.int (intOfDigits s))
  else none

/-- `parse_number`: the four-rule locale-ambiguous number parser.
`none` models the `ValueError` raised when every rule fails (including
the `int()` failure inside the multi-comma rule). -/
def parse_number (s0 : List Char) : Option PyNum :=
  let s := pyStrip s0
  if matchThousandDot s then
    some (.int (intOfDigits (s.filter (· ≠ '.'))))
  else if s.contains ',' && !s.contains '.' then
    if matchDigitsCommaDigits s then
      let left := s.takeWhile (· ≠ ',')
      let right := (s.dropWhile (· ≠ ',')).drop 1
      if right.length = 3 then some (.int (intOfDigits (left ++ right)))
      else some (.real (decimalVal left right))
    else
      let parts := s.splitOn ','
      if (parts.drop 1).all (fun p => p.length ≤ 3) then
        (pyIntOfStr parts.flatten).map PyNum.int
      else plainNumRules s
  else plainNumRules s

/-! ### Regex-style searchers used by the page parser -/

/-- A character of the class `[\d\.,]`. -/
def isNumCh (c : Char) : Bool := isDig c || c = '.' || c = ','

/-- A character of the class `[\d,]`. -/
def isIntCh (c : Char) : Bool := isDig c || c = ','

/-- `re.search(r"([\d\.,]+)", line)`: the maximal class run starting at
the leftmost class character. -/
def searchNumTok : List Char → Option (List Char)
  | [] => none
  | c :: rest =>
    if isNumCh c then some ((c :: rest).takeWhile isNumCh)
    else searchNumTok rest

/-- `re.search(r"([\d\.,]+)\s*km/h", line)`. -/
def searchKmH : List Char → Option (List Char)
  | [] => none
  | c :: rest =>
    if isNumCh c then
      let tok := (c :: rest).takeWhile isNumCh
      let after := ((c :: rest).dropWhile isNumCh).dropWhile pyIsSpace
      if litAt "km/h".data after then some tok else searchKmH rest
    else searchKmH rest

/-- `re.search(r"(\d+)", line)`: the leftmost maximal digit run. -/
def firstDigitRun : List Char → Option (List Char)
  | [] => none
  | c :: rest =>
    if isDig c then some ((c :: rest).takeWhile isDig)
    else firstDigitRun rest

/-- `re.search(r"=\s*([\d,]+)", line)`. -/
def searchEqTok : List Char → Option (List Char)
  | [] => none
  | '=' :: rest =>
    let after := rest.dropWhile pyIsSpace
    let tok := after.takeWhile isIntCh
    if tok = [] then searchEqTok rest else some tok
  | _ :: rest => searchEqTok rest

/-- `re.search(r"Total:\s*([\d,]+)", line)`. -/
def searchTotalTok : List Char → Option (List Char)
  | [] => none
  | c :: rest =>
    if litAt "Total:".data (c :: rest) then
      let after := ((c :: rest).drop 6).dropWhile pyIsSpace
      let tok := after.takeWhile isIntCh
      if tok = [] then searchTotalTok rest else some tok
    else searchTotalTok rest

/-- Match of `re.search(r"\((?:[^\d]*)(\d+)[^\d]*\)", s)` anchored just
after one `'('`: the first digit run after it, provided a `')'` occurs in
the non-digit run that follows the digits. -/
def parenNumAt (after : List Char) : Option (List Char) :=
  let atDigits := after.dropWhile (fun c => !isDig c)
  let digits := atDigits.takeWhile isDig
  let rest2 := atDigits.dropWhile isDig
  if digits = [] then none
  else if (rest2.takeWhile (fun c => !isDig c)).contains ')' then some digits
  else none

/-- `re.search(r"\((?:[^\d]*)(\d+)[^\d]*\)", s)`: the captured integer. -/
def parenNum : List Char → Option ℤ
  | [] => none
  | '(' :: rest =>
    (match parenNumAt rest with
     | some ds => some (intOfDigits ds)
     | none => parenNum rest)
  | _ :: rest => parenNum rest

/-- The `(?:/\d+)+` groups of `re.search(r"(\d+(?:/\d+)+)", s)`:
`cur` holds the digits of the group being read, reversed. -/
def slashGroupsGo (cur : List Char) : List Char → List (List Char)
  | [] => [cur.reverse]
  | c :: rest =>
    if isDig c then slashGroupsGo (c :: cur) rest
    else if c = '/' then
      match rest with
      | [] => [cur.reverse]
      | d :: rest2 =>
        if isDig d then cur.reverse :: slashGroupsGo [d] rest2
        else [cur.reverse]
    else [cur.reverse]

def slashGroups : List Char → List (List Char)
  | '/' :: c :: rest => if isDig c then slashGroupsGo [c] rest else []
  | _ => []

/-- `re.search(r"(\d+(?:/\d+)+)", s)`, returning the slash-separated
digit groups of the match (the effect of `req_str.split("/")`). -/
def searchSlashRun : List Char → Option (List (List Char))
  | [] => none
  | c :: rest =>
    if isDig c then
      let d0 := (c :: rest).takeWhile isDig
      let r0 := (c :: rest).dropWhile isDig
      match slashGroups r0 with
      | [] => searchSlashRun rest
      | g :: gs => some (d0 :: g :: gs)
    else searchSlashRun rest

/-- `re.search(r"\d+/\d+/", s) is not None`. -/
def hasDigSlashDigSlash : List Char → Bool
  | [] => false
  | c :: rest =>
    if isDig c then
      (match (c :: rest).dropWhile isDig with
       | '/' :: r1 =>
         (match r1.takeWhile isDig, r1.dropWhile isDig with
          | _ :: _, '/' :: _ => true
          | _, _ => hasDigSlashDigSlash rest)
       | _ => hasDigSlashDigSlash rest)
    else hasDigSlashDigSlash rest

/-- `re.fullmatch(r"\d+(?:/\d+)+", s) is not None`: the scan after the
leading digit run, inside a slash group with at least one digit read. -/
def slashGroupsFullGo : List Char → Bool
  | [] => true
  | c :: rest =>
    if isDig c then slashGroupsFullGo rest
    else if c = '/' then
      match rest with
      | [] => false
      | d :: rest2 => isDig d && slashGroupsFullGo rest2
    else false

def slashGroupsFull : List Char → Bool
  | '/' :: c :: rest => isDig c && slashGroupsFullGo rest
  | _ => false

def fullSlashRun (s : List Char) : Bool :=
  !(s.takeWhile isDig).isEmpty && slashGroupsFull (s.dropWhile isDig)

/-- `re.search(r"⛽\s+(\d+)\s+fuels", line)`: the captured fuel count. -/
def searchFuel : List Char → Option ℤ
  | [] => none
  | c :: rest =>
    if c = '⛽' then
      let ws1 := rest.takeWhile pyIsSpace
      let r1 := rest.dropWhile pyIsSpace
      let d := r1.takeWhile isDig
      let r2 := r1.dropWhile isDig
      let ws2 := r2.takeWhile pyIsSpace
      let r3 := r2.dropWhile pyIsSpace
      if ws1 ≠ [] && d ≠ [] && ws2 ≠ [] && litAt "fuels".data r3 then
        some (intOfDigits d)
      else searchFuel rest
    else searchFuel rest

/-! ### Line classifiers -/

/-- `re.fullmatch(r"[DCBAS]", l)`. -/
def isClassLine (l : List Char) : Bool :=
  match l with
  | [c] => c = 'D' || c = 'C' || c = 'B' || c = 'A' || c = 'S'
  | _ => false

/-- `set(l) == {"⭐"}`, which coincides with `re.fullmatch(r"\⭐+", l)`
on (nonempty) lines. -/
def isStarLine (l : List Char) : Bool :=
  !l.isEmpty && l.all (· = '⭐')

/-! ### Stat blocks -/

/-- One captured stat block (Python dataclass `StatEntry`). -/
structure StatEntry where
  kind : List Char      -- 'stock' | 'star' | 'max_wo_epics' | 'gold'
  label : List Char
  rank : ℤ
  top_speed : ℚ
  accel : ℚ
  handling : ℚ
  nitro : ℚ
deriving Repr, DecidableEq

/-- The `\s*\[(\d+)\]$` tail of the stat-header regex. -/
def bracketTail (t : List Char) : Option ℤ :=
  match t.dropWhile pyIsSpace with
  | '[' :: r =>
    (match r.takeWhile isDig, r.dropWhile isDig with
     | _ :: _, [']'] => some (intOfDigits (r.takeWhile isDig))
     | _, _ => none)
  | _ => none

/-- `re.match(r"^(Stock|Gold|Max w/o epics|\⭐+)\s*\[(\d+)\]$", line)`:
the captured label and rank. -/
def headerMatch (s : List Char) : Option (List Char × ℤ) :=
  (if litAt "Stock".data s then
     (bracketTail (s.drop 5)).map (fun r => ("Stock".data, r))
   else none) <|>
  (if litAt "Gold".data s then
     (bracketTail (s.drop 4)).map (fun r => ("Gold".data, r))
   else none) <|>
  (if litAt "Max w/o epics".data s then
     (bracketTail (s.drop 13)).map (fun r => ("Max w/o epics".data, r))
   else none) <|>
  (match s.takeWhile (· = '⭐') with
   | [] => none
   | st :: sts =>
     (bracketTail (s.dropWhile (· = '⭐'))).map (fun r => (st :: sts, r)))

def isHeaderLine (l : List Char) : Bool := (headerMatch l).isSome

/-- The page-level failures (`ValueError`s) raised by `parse_mei_page`;
`format` is the `parse_number` failure escaping from a non-optional
field, carrying the offending token. -/
inductive ParseErr where
  | missingClass
  | missingStar
  | missingStat
  | format (tok : List Char)
deriving Repr, DecidableEq

/-- The `MissingSectionError` class of failures, as opposed to the
`FormatError` class. -/
def ParseErr.isMissingSection : ParseErr → Bool
  | .missingClass => true
  | .missingStar => true
  | .missingStat => true
  | .format _ => false

/-- The metric-collection loop of `parse_stat_block`: consume up to four
metric values, stopping at the next header or end of input; returns the
collected values and the unconsumed lines. -/
def collectStats : List (List Char) → List PyNum →
    Except ParseErr (List PyNum × List (List Char))
  | [], acc => .ok (acc.reverse, [])
  | l :: rest, acc =>
    if acc.length ≥ 4 then .ok (acc.reverse, l :: rest)
    else if isHeaderLine l then .ok (acc.reverse, l :: rest)
    else
      match searchKmH l with
      | some tok =>
        (match parse_number tok with
         | some v => collectStats rest (v :: acc)
         | none => .error (.format tok))
      | none =>
        match searchNumTok l with
        | some tok =>
          (match parse_number tok with
           | some v => collectStats rest (v :: acc)
           | none => .error (.format tok))
        | none => collectStats rest acc

/-- The label-to-kind mapping of `parse_stat_block`. -/
def kindOfLabel (label : List Char) : List Char :=
  if label = "Stock".data then "stock".data
  else if label = "Gold".data then "gold".data
  else if label = "Max w/o epics".data then "max_wo_epics".data
  else "star".data

/-- Assemble a `StatEntry` from a matched header and its four metrics. -/
def mkEntry (label : List Char) (rank : ℤ) (stats : List PyNum) : StatEntry :=
  { kind := kindOfLabel label
    label := label
    rank := rank
    top_speed := (stats.getD 0 (.int 0)).toRat
    accel := (stats.getD 1 (.int 0)).toRat
    handling := (stats.getD 2 (.int 0)).toRat
    nitro := (stats.getD 3 (.int 0)).toRat }

/-- The stat-block scanning loop of `parse_mei_page` (lines 296–305 of
the source): try every header line, keep complete blocks, skip past a
block that yields fewer than four metrics. The structural fuel argument
only bounds the recursion; starting it at the length of the line list it
never runs out (theorem `statScanF_congr` below). -/
def statScanF : ℕ → List (List Char) → Except ParseErr (List StatEntry)
  | _, [] => .ok []
  | 0, _ :: _ => .ok []
  | fuel + 1, l :: rest =>
    match headerMatch l with
    | none => statScanF fuel rest
    | some (label, rank) =>
      match collectStats rest [] with
      | .error e => .error e
      | .ok (stats, rest') =>
        if stats.length = 4 then
          match statScanF fuel rest' with
          | .error e => .error e
          | .ok es => .ok (mkEntry label rank stats :: es)
        else statScanF fuel rest

def statScan (ls : List (List Char)) : Except ParseErr (List StatEntry) :=
  statScanF ls.length ls

/-! ### Section extractors of `parse_mei_page` -/

/-- `extract_bp_from_two_lines`: blueprint requirements from the
slash-run of `line1` (key and plus glyphs removed) and the parenthesised
total from `line1` or `line2`. `none` models the Python `None` return. -/
def extract_bp_from_two_lines (line1 : List Char) (line2 : Option (List Char)) :
    Option (List ℤ × Option ℤ) :=
  match (searchSlashRun ((line1.filter (· ≠ '🔑')).filter (· ≠ '+'))).map
      (fun gs => gs.map intOfDigits) with
  | some r => some (r, (parenNum line1).orElse (fun _ => parenNum (line2.getD [])))
  | none => none

/-- The BP-scanning loop of `parse_mei_page` (lines 242–253): find the
first candidate line, extract requirements, total, and whether a key
glyph appears in the block. -/
def bpSection : List (List Char) → Option (List ℤ × Option ℤ × Bool)
  | [] => none
  | l :: rest =>
    if hasDigSlashDigSlash (l.filter (· ≠ '🔑')) || fullSlashRun (l.filter (· ≠ '🔑')) then
      match extract_bp_from_two_lines l rest.head? with
      | some (reqs, total) =>
        some (reqs, total,
          l.contains '🔑' || ((rest.head?.getD []).contains '🔑'))
      | none => bpSection rest
    else bpSection rest

/-- `itertools.accumulate` with integer addition. -/
def accumFrom (a : ℤ) : List ℤ → List ℤ
  | [] => []
  | x :: xs => (a + x) :: accumFrom (a + x) xs

def pyAccumulate (l : List ℤ) : List ℤ := accumFrom 0 l

/-- The `Epics:` section (lines 267–283): per-metric premium-part
quantity and total premium price; a `parse_number` failure on the price
line is caught and leaves the price at `0`. -/
def epicsSection (ls : List (List Char)) : ℤ × PyNum :=
  match ls.findIdx? (fun l => litAt "Epics:".data l) with
  | none => (0, .int 0)
  | some i =>
    let per : ℤ :=
      match ls[i + 1]? with
      | some l1 =>
        (match firstDigitRun l1 with
         | some ds => intOfDigits ds
         | none => 0)
      | none => 0
    let price : PyNum :=
      match ls[i + 2]? with
      | some l2 =>
        (match parse_number l2 with
         | some v => v
         | none => .int 0)
      | none => .int 0
    (per, price)

/-- The fuel section (lines 228–233): first line starting with the fuel
glyph, matched against `⛽\s+(\d+)\s+fuels`. -/
def fuelSection (ls : List (List Char)) : Option ℤ :=
  match ls.find? (fun l => litAt ['⛽'] l) with
  | none => none
  | some l => searchFuel l

/-- The upgrade-ladder loop (lines 381–397): star-glyph lines open a
block, the next `=`-line inside a block contributes one total. A
`parse_number` failure on the matched token is fatal. -/
def upgradeScan (inb : Bool) (acc : List ℤ) :
    List (List Char) → Except ParseErr (List ℤ)
  | [] => .ok acc.reverse
  | l :: rest =>
    if isStarLine l then upgradeScan true acc rest
    else if inb then
      if litAt ['='] l then
        match searchEqTok l with
        | some tok =>
          (match parse_number tok with
           | some v => upgradeScan false (v.trunc :: acc) rest
           | none => .error (.format tok))
        | none => upgradeScan false acc rest
      else upgradeScan inb acc rest
    else upgradeScan false acc rest

/-- The `Total:` section (lines 399–405): first `Total:` line, token via
the searcher, value via `parse_number`; a failure is fatal (uncaught). -/
def totalSection (ls : List (List Char)) : Except ParseErr (Option PyNum) :=
  match ls.find? (fun l => litAt "Total:".data l) with
  | none => .ok none
  | some l =>
    match searchTotalTok l with
    | none => .ok none
    | some tok =>
      match parse_number tok with
      | some v => .ok (some v)
      | none => .error (.format tok)

/-! ### Aggregation -/

/-- One step of the best-rank dictionary update (lines 317–322): a
strictly greater rank replaces the incumbent. -/
def bestStep (cur : Option StatEntry) (e : StatEntry) : Option StatEntry :=
  match cur with
  | none => some e
  | some c => if e.rank > c.rank then some e else some c

/-- The per-star-count projection of the `best_by_star` dictionary:
fold the entries whose label has `sc` glyphs through `bestStep`. -/
def bestByStar (l : List StatEntry) (sc : ℕ) : Option StatEntry :=
  l.foldl (fun acc e => if e.label.length = sc then bestStep acc e else acc) none

/-- The tags used in the final `stat` list (`"stock"`, `"full"`,
`"max_wo_epics"`, `"gold"` in the source). -/
inductive StatType where
  | stock
  | full
  | max_wo_epics
  | gold
deriving Repr, DecidableEq

/-- One element of the final `stat` list. -/
structure StatItem where
  star : ℕ
  type : StatType
  rank : ℤ
  top_speed : ℚ
  accel : ℚ
  handling : ℚ
  nitro : ℚ
deriving Repr, DecidableEq

def itemOf (star : ℕ) (ty : StatType) (e : StatEntry) : StatItem :=
  { star := star, type := ty, rank := e.rank, top_speed := e.top_speed,
    accel := e.accel, handling := e.handling, nitro := e.nitro }

/-- Part 1 of the final `stat` list: the stock entry at star 1. -/
def stockPart (entries : List StatEntry) : List StatItem :=
  match entries.find? (fun e => e.kind = "stock".data) with
  | some e => [itemOf 1 .stock e]
  | none => []

/-- Part 2: for each star `1 .. max_star-1`, the best captured star
entry. -/
def fullPart (stars : List StatEntry) (max_star : ℕ) : List StatItem :=
  (List.range' 1 (max_star - 1)).filterMap fun s =>
    (bestByStar stars s).map (itemOf s .full)

/-- Part 3: the max-without-epics entry, only for cars with a
premium-part tier. -/
def woPart (entries : List StatEntry) (max_star : ℕ) (hasEpic : Bool) :
    List StatItem :=
  if hasEpic then
    match entries.find? (fun e => e.kind = "max_wo_epics".data) with
    | some e => [itemOf max_star .max_wo_epics e]
    | none => []
  else []

/-- Part 4: the gold entry at `max_star`. -/
def goldPart (entries : List StatEntry) (max_star : ℕ) : List StatItem :=
  match entries.find? (fun e => e.kind = "gold".data) with
  | some e => [itemOf max_star .gold e]
  | none => []

/-- Assembly of the final `stat` list (lines 311–376): the stock entry
at star 1, the best full entry for stars `1 .. max_star-1`, the
max-without-epics entry (only when the car has a premium-part tier), and
the gold entry. -/
def buildStatList (entries : List StatEntry) (max_star : ℕ) (hasEpic : Bool) :
    List StatItem :=
  stockPart entries ++
  fullPart (entries.filter fun e => e.kind = "star".data) max_star ++
  woPart entries max_star hasEpic ++
  goldPart entries max_star

/-- The per-star deltas derived from the cumulative list
(lines 413–418): first element kept, later elements are successive
differences. -/
def perStarOf (cum : List ℤ) : List ℤ :=
  (List.range cum.length).map fun idx =>
    if idx = 0 then cum.getD idx 0 else cum.getD idx 0 - cum.getD (idx - 1) 0

/-- The unlock-method tag (`"bp"` or `"key"` in the source). -/
inductive UnlockMethod where
  | bp
  | key
deriving Repr, DecidableEq

/-- The per-metric premium-part quantity dictionary (the same integer is
stored under all four metric keys). -/
structure EpicAmounts where
  top_speed : ℤ
  accel : ℤ
  handling : ℤ
  nitro : ℤ
deriving Repr, DecidableEq

/-- The record assembled by `parse_mei_page`. -/
structure CarRecord where
  id : ℤ
  carClass : List Char
  name : List Char
  max_star : ℕ
  fuel : Option ℤ
  bp_requirements : List ℤ
  bp_cumulative : List ℤ
  bp_all : Option ℤ
  unlock_method : Option UnlockMethod
  epic_importparts_amount : EpicAmounts
  epic_price : PyNum
  stat : List StatItem
  upgrade_cumulative : List ℤ
  upgrade_per_star : List ℤ
  upgrade_all : Option ℤ
deriving Repr, DecidableEq

/-- Assembly of the `car` dictionary from the section results. -/
def mkCar (ls : List (List Char)) (id : ℤ) (iCls : ℕ) (nameLine starLine : List Char)
    (entries : List StatEntry) (totals : List ℤ) (upAll : Option PyNum) : CarRecord :=
  let maxStar := starLine.length
  let epics := epicsSection ls
  let bpR := bpSection ls
  let upgradeCum := if totals = [] then [] else totals
  { id := id
    carClass := ls.getD iCls []
    name := pyStrip nameLine
    max_star := maxStar
    fuel := fuelSection ls
    bp_requirements :=
      match bpR with
      | some (r, _, _) => r
      | none => []
    bp_cumulative :=
      match bpR with
      | some (r, _, _) => pyAccumulate r
      | none => []
    bp_all :=
      match bpR with
      | some (_, t, _) => t
      | none => none
    unlock_method :=
      match bpR with
      | some (_, _, k) => some (if k then .key else .bp)
      | none => none
    epic_importparts_amount := ⟨epics.1, epics.1, epics.1, epics.1⟩
    epic_price := epics.2
    stat := buildStatList entries maxStar (decide (0 < epics.1))
    upgrade_cumulative := upgradeCum
    upgrade_per_star := perStarOf upgradeCum
    upgrade_all := upAll.map PyNum.trunc }

/-- `parse_mei_page` on the normalized line sequence: the required
anchors in source order (class/name, star line, stat blocks), the
soft sections, and the two fatal `parse_number` positions. -/
def parseLines (ls : List (List Char)) (id : ℤ) : Except ParseErr CarRecord :=
  match ls.findIdx? isClassLine with
  | none => .error .missingClass
  | some iCls =>
    match ls[iCls + 1]? with
    | none => .error .missingClass
    | some nameLine =>
      match ls.find? isStarLine with
      | none => .error .missingStar
      | some starLine =>
        match statScan ls with
        | .error e => .error e
        | .ok [] => .error .missingStat
        | .ok (e0 :: entriesTail) =>
          match upgradeScan false [] ls with
          | .error e => .error e
          | .ok totals =>
            match totalSection ls with
            | .error e => .error e
            | .ok upAll =>
              .ok (mkCar ls id iCls nameLine starLine (e0 :: entriesTail) totals upAll)

/-- `parse_mei_page`: normalize the text into lines, then parse. -/
def parseMeiPage (text : String) (id : ℤ) : Except ParseErr CarRecord :=
  parseLines (toLines text.data) id


/-! ### Concrete pages used by the claim theorems -/

/-- Page with both a `Stock` block and a one-star block. -/
def c1Text : String :=
  "D\nCarName\n⭐⭐\nStock [467]\n1 km/h\n2\n3\n4\n⭐ [728]\n5 km/h\n6\n7\n8"

/-- Page whose class line is the last normalized line. -/
def c4Text : String := "⭐⭐\nStock [467]\n1 km/h\n2\n3\n4\nD"

/-- Page whose `Total:` token fails every `parse_number` rule. -/
def c3Text : String := "D\nCar\n⭐⭐\nStock [1]\n1 km/h\n2\n3\n4\nTotal: 12,3456,78"

/-- Page whose premium-part price line fails every `parse_number` rule. -/
def c3wText : String :=
  "D\nCar\n⭐⭐\nEpics:\n2 x 240000 x 4=\nbad,.\nStock [1]\n1 km/h\n2\n3\n4"

/-- Page whose upgrade-ladder totals decrease. -/
def c5Text : String := "D\nCar\n⭐⭐\nStock [1]\n1 km/h\n2\n3\n4\n⭐⭐\n= 5\n⭐⭐\n= 3"

/-- Page whose upgrade-ladder totals increase. -/
def c5wText : String := "D\nCar\n⭐⭐\nStock [1]\n1 km/h\n2\n3\n4\n⭐⭐\n= 5\n⭐⭐\n= 8"

/-- Page with the unlock block `5/8/30` then `(43)`. -/
def c8aText : String := "D\nCar\n⭐⭐\n5/8/30\n(43)\nStock [1]\n1 km/h\n2\n3\n4"

/-- The same page with a key glyph on the requirements line. -/
def c8bText : String := "D\nCar\n⭐⭐\n🔑 5/8/30\n(43)\nStock [1]\n1 km/h\n2\n3\n4"

/-- The same page with the key glyph on the parenthesised-total line
instead. -/
def c8cText : String := "D\nCar\n⭐⭐\n5/8/30\n(🔑 + 43)\nStock [1]\n1 km/h\n2\n3\n4"

/-- Page missing the star-glyph line. -/
def c4wText : String := "D\nCar\nStock [467]\n1 km/h\n2\n3\n4"

/-! ### Claim theorems -/

/-- C2: `parse_number` maps `"42.486.000"` to the integer `42486000`,
`"68,200"` to `68200`, `"42,2"` to the decimal `42.2`, `"1,234,567"` to
`1234567`, `"123.45"` to the decimal `123.45`, `"307"` to `307`, and
fails (`FormatError`) on `"12a"`, following the fixed disambiguation
order of the four rules. -/
theorem c2_number_examples :
    parse_number "42.486.000".data = some (.int 42486000) ∧
    parse_number "68,200".data = some (.int 68200) ∧
    parse_number "42,2".data = some (.real (mkRat 211 5)) ∧
    parse_number "1,234,567".data = some (.int 1234567) ∧
    parse_number "123.45".data = some (.real (mkRat 2469 20)) ∧
    parse_number "307".data = some (.int 307) ∧
    parse_number "12a".data = none := by
  refine ⟨?_, ?_, ?_, ?_, ?_, ?_, ?_⟩ <;> rfl

/-- C8: on a page whose unlock block is the line `5/8/30` followed by
`(43)`, the record has `bp_requirements = [5, 8, 30]`, `bp_all = 43` and
`unlock_method = "bp"`; with a key glyph present on either of the two
lines of the block (the requirements line or the parenthesised-total
line) it has `unlock_method = "key"`, with the same requirements and
total. -/
theorem c8_unlock_block :
    (parseMeiPage c8aText 4).map
        (fun c => (c.bp_requirements, c.bp_all, c.unlock_method)) =
      .ok ([5, 8, 30], some 43, some .bp) ∧
    (parseMeiPage c8bText 5).map
        (fun c => (c.bp_requirements, c.bp_all, c.unlock_method)) =
      .ok ([5, 8, 30], some 43, some .key) ∧
    (parseMeiPage c8cText 6).map
        (fun c => (c.bp_requirements, c.bp_all, c.unlock_method)) =
      .ok ([5, 8, 30], some 43, some .key) := by
  refine ⟨?_, ?_, ?_⟩
  · rfl
  · rfl
  · rfl

/-- C1 counterexample: a page on which `parse_mei_page` succeeds with a
stat list containing a stock entry and a full entry at the same star
(star 1), refuting the claim that stock and full entries for one star
never coexist. -/
theorem c1_stock_full_coexist_cex :
    (parseMeiPage c1Text 1).map (fun c => c.stat.map fun e => (e.star, e.type)) =
      .ok [(1, .stock), (1, .full)] := by
  rfl

/-- C4 counterexample: a page whose class line is the last normalized
line raises the class `MissingSectionError` although a class line, a
star line and a complete stat block are all present. -/
theorem c4_missing_section_cex :
    parseMeiPage c4Text 2 = .error .missingClass ∧
    (toLines c4Text.data).any isClassLine = true ∧
    (toLines c4Text.data).any isStarLine = true ∧
    (statScan (toLines c4Text.data)).map (fun es => es.length) = .ok 1 := by
  exact ⟨rfl, rfl, rfl, rfl⟩

/-- C3 counterexample: a `parse_number` failure on the `Total:` token is
fatal to the page (the `FormatError` escapes), although the claim calls
the field optional. -/
theorem c3_total_format_fatal_cex :
    parse_number "12,3456,78".data = none ∧
    parseMeiPage c3Text 3 = .error (.format "12,3456,78".data) := by
  exact ⟨rfl, rfl⟩

/-- C5 counterexample: a successfully parsed page whose non-empty
`upgrade_cumulative` list is not strictly increasing. -/
theorem c5_not_increasing_cex :
    (parseMeiPage c5Text 6).map (fun c => c.upgrade_cumulative) = .ok [5, 3] ∧
    ¬ List.Chain' (· < ·) ([5, 3] : List ℤ) := by
  refine ⟨rfl, ?_⟩
  simp

/-! ### Inversion of a successful parse -/

/-- Successful parses arise exactly from the assembly `mkCar` applied to
the section results, with every required anchor present. -/
theorem parseLines_ok_inv {ls : List (List Char)} {id : ℤ} {car : CarRecord}
    (h : parseLines ls id = .ok car) :
    ∃ iCls nameLine starLine entries totals upAll,
      ls.findIdx? isClassLine = some iCls ∧
      ls[iCls + 1]? = some nameLine ∧
      ls.find? isStarLine = some starLine ∧
      statScan ls = .ok entries ∧ entries ≠ [] ∧
      upgradeScan false [] ls = .ok totals ∧
      totalSection ls = .ok upAll ∧
      car = mkCar ls id iCls nameLine starLine entries totals upAll := by
  unfold parseLines at h
  repeat' split at h
  all_goals try exact Except.noConfusion h
  rename_i x5 iCls h1 x4 nameLine h2 x3 starLine h3 x2 e0 tail h4 x1 totals h5 x0 upAll h6
  cases h
  exact ⟨iCls, nameLine, starLine, e0 :: tail, totals, upAll, h1, h2, h3, h4,
    by simp, h5, h6, rfl⟩

/-! ### C1: shape of the assembled stat list -/

/-- For every item in the assembled stat list, its `(star, type)` pair
is allowed: `(1, stock)`, `(s, full)` with `1 ≤ s ≤ max_star - 1`, or
`(max_star, max_wo_epics)` / `(max_star, gold)`. -/
theorem mem_buildStatList {entries : List StatEntry} {ms : ℕ} {he : Bool}
    {it : StatItem} (h : it ∈ buildStatList entries ms he) :
    (it.star = 1 ∧ it.type = .stock) ∨
    (1 ≤ it.star ∧ it.star + 1 ≤ ms ∧ it.type = .full) ∨
    (it.star = ms ∧ (it.type = .max_wo_epics ∨ it.type = .gold)) := by
  unfold buildStatList at h
  simp only [List.mem_append] at h
  rcases h with ((h | h) | h) | h
  · unfold stockPart at h
    split at h
    · simp only [List.mem_singleton] at h
      subst h
      left
      exact ⟨rfl, rfl⟩
    · simp at h
  · unfold fullPart at h
    rw [List.mem_filterMap] at h
    obtain ⟨s, hs, hf⟩ := h
    rw [List.mem_range'] at hs
    obtain ⟨i, hi, rfl⟩ := hs
    simp only [Option.map_eq_some'] at hf
    obtain ⟨e, _, he'⟩ := hf
    subst he'
    right; left
    refine ⟨by simp [itemOf], ?_, rfl⟩
    simp only [itemOf]
    omega
  · unfold woPart at h
    split at h
    · split at h
      · simp only [List.mem_singleton] at h
        subst h
        right; right
        exact ⟨rfl, Or.inl rfl⟩
      · simp at h
    · simp at h
  · unfold goldPart at h
    generalize List.find? (fun e => decide (e.kind = "gold".data)) entries = r at h
    cases r with
    | none => simp at h
    | some e =>
      simp only [List.mem_singleton] at h
      subst h
      right; right
      exact ⟨rfl, Or.inr rfl⟩

/-- Keys of the stock part all carry the `stock` tag. -/
theorem stockPart_key {entries : List StatEntry} {k : ℕ × StatType}
    (h : k ∈ (stockPart entries).map fun e => (e.star, e.type)) :
    k.2 = .stock := by
  unfold stockPart at h
  split at h
  · simp only [List.map_cons, List.map_nil, List.mem_singleton] at h
    subst h; rfl
  · simp at h

/-- Keys of the full part all carry the `full` tag. -/
theorem fullPart_key {stars : List StatEntry} {ms : ℕ} {k : ℕ × StatType}
    (h : k ∈ (fullPart stars ms).map fun e => (e.star, e.type)) :
    k.2 = .full := by
  unfold fullPart at h
  simp only [List.mem_map, List.mem_filterMap] at h
  obtain ⟨it, ⟨s, _, hf⟩, hk⟩ := h
  simp only [Option.map_eq_some'] at hf
  obtain ⟨e, _, he'⟩ := hf
  subst he'
  subst hk
  rfl

/-- Keys of the max-without-epics part all carry its tag. -/
theorem woPart_key {entries : List StatEntry} {ms : ℕ} {he : Bool}
    {k : ℕ × StatType}
    (h : k ∈ (woPart entries ms he).map fun e => (e.star, e.type)) :
    k.2 = .max_wo_epics := by
  unfold woPart at h
  split at h
  · split at h
    · simp only [List.map_cons, List.map_nil, List.mem_singleton] at h
      subst h; rfl
    · simp at h
  · simp at h

/-- Keys of the gold part all carry the `gold` tag. -/
theorem goldPart_key {entries : List StatEntry} {ms : ℕ} {k : ℕ × StatType}
    (h : k ∈ (goldPart entries ms).map fun e => (e.star, e.type)) :
    k.2 = .gold := by
  unfold goldPart at h
  split at h
  · simp only [List.map_cons, List.map_nil, List.mem_singleton] at h
    subst h; rfl
  · simp at h

/-- The keys of the full part are pairwise distinct (one candidate star
per dictionary key). -/
theorem fullPart_nodup (stars : List StatEntry) (ms : ℕ) :
    ((fullPart stars ms).map fun e => (e.star, e.type)).Nodup := by
  unfold fullPart
  rw [List.map_filterMap]
  refine List.Nodup.filterMap ?_ (List.nodup_range' 1 (ms - 1))
  intro a a' b hb hb'
  simp only [Option.map_map, Option.mem_def, Option.map_eq_some'] at hb hb'
  obtain ⟨e, _, hbe⟩ := hb
  obtain ⟨e', _, hbe'⟩ := hb'
  have h1 : b.1 = a := by rw [← hbe]; rfl
  have h2 : b.1 = a' := by rw [← hbe']; rfl
  omega

/-- The `(star, type)` keys of the assembled stat list are pairwise
distinct: the list holds at most one entry per pair. -/
theorem buildStatList_keys_nodup (entries : List StatEntry) (ms : ℕ) (he : Bool) :
    ((buildStatList entries ms he).map fun e => (e.star, e.type)).Nodup := by
  unfold buildStatList
  rw [List.map_append, List.map_append, List.map_append]
  rw [List.nodup_append, List.nodup_append, List.nodup_append]
  refine ⟨⟨⟨?_, fullPart_nodup _ _, ?_⟩, ?_, ?_⟩, ?_, ?_⟩
  · unfold stockPart
    generalize List.find? (fun e => decide (e.kind = "stock".data)) entries = r
    cases r <;> simp
  · intro k hk hk'
    have t1 := stockPart_key hk
    have t2 := fullPart_key hk'
    rw [t1] at t2
    cases t2
  · unfold woPart
    cases he
    · simp
    · simp only [if_true]
      generalize List.find? (fun e => decide (e.kind = "max_wo_epics".data)) entries = r
      cases r <;> simp
  · intro k hk hk'
    have t2 := woPart_key hk'
    rcases List.mem_append.mp hk with hk | hk
    · have t1 := stockPart_key hk
      rw [t1] at t2
      cases t2
    · have t1 := fullPart_key hk
      rw [t1] at t2
      cases t2
  · unfold goldPart
    generalize List.find? (fun e => decide (e.kind = "gold".data)) entries = r
    cases r <;> simp
  · intro k hk hk'
    have t2 := goldPart_key hk'
    rcases List.mem_append.mp hk with hk | hk
    · rcases List.mem_append.mp hk with hk | hk
      · have t1 := stockPart_key hk
        rw [t1] at t2
        cases t2
      · have t1 := fullPart_key hk
        rw [t1] at t2
        cases t2
    · have t1 := woPart_key hk
      rw [t1] at t2
      cases t2

/-- C1 (amended): for every input text on which `parse_mei_page`
succeeds, the stat list has at most one entry per `(star, type)` pair
and every pair lies in `{(1, stock)} ∪ {(s, full) | 1 ≤ s ≤ max_star-1}
∪ {(max_star, max_wo_epics), (max_star, gold)}`; a stock entry and a
full entry may coexist at star 1 (the original claim's third conjunct
fails, see the counterexample). -/
theorem c1_stat_pairs_amended (t : String) (id : ℤ) (car : CarRecord)
    (h : parseMeiPage t id = .ok car) :
    ((car.stat.map fun e => (e.star, e.type)).Nodup ∧
     ∀ e ∈ car.stat,
       (e.star = 1 ∧ e.type = .stock) ∨
       (1 ≤ e.star ∧ e.star ≤ car.max_star - 1 ∧ e.type = .full) ∨
       (e.star = car.max_star ∧ (e.type = .max_wo_epics ∨ e.type = .gold))) := by
  obtain ⟨iCls, nameLine, starLine, entries, totals, upAll,
    h1, h2, h3, h4, h5, h6, h7, hcar⟩ := parseLines_ok_inv h
  subst hcar
  have hs : (mkCar (toLines t.data) id iCls nameLine starLine entries totals upAll).stat =
      buildStatList entries starLine.length
        (decide (0 < (epicsSection (toLines t.data)).1)) := rfl
  have hm : (mkCar (toLines t.data) id iCls nameLine starLine entries totals upAll).max_star =
      starLine.length := rfl
  rw [hs, hm]
  constructor
  · exact buildStatList_keys_nodup _ _ _
  · intro e he'
    rcases mem_buildStatList he' with h' | h' | h'
    · exact Or.inl h'
    · exact Or.inr (Or.inl ⟨h'.1, by omega, h'.2.2⟩)
    · exact Or.inr (Or.inr h')

/-- C1 witness: the amended invariant holds on a concrete successfully
parsed page. -/
theorem c1_stat_pairs_witness :
    ∃ car, parseMeiPage c1Text 1 = .ok car ∧
      ((car.stat.map fun e => (e.star, e.type)).Nodup ∧
       ∀ e ∈ car.stat,
         (e.star = 1 ∧ e.type = .stock) ∨
         (1 ≤ e.star ∧ e.star ≤ car.max_star - 1 ∧ e.type = .full) ∨
         (e.star = car.max_star ∧ (e.type = .max_wo_epics ∨ e.type = .gold))) := by
  cases hh : parseMeiPage c1Text 1 with
  | ok car => exact ⟨car, rfl, c1_stat_pairs_amended c1Text 1 car hh⟩
  | error e =>
    have hOk : (parseMeiPage c1Text 1).isOk = true := by rfl
    rw [hh] at hOk
    simp [Except.isOk, Except.toBool] at hOk

/-! ### C5, C6: the per-star delta list -/

theorem perStarOf_length (cum : List ℤ) :
    (perStarOf cum).length = cum.length := by
  simp [perStarOf]

/-- Closed form of the delta loop: the head is kept, each later element
is the difference of neighbouring cumulative entries. -/
theorem perStarOf_cons (c : ℤ) (rest : List ℤ) :
    perStarOf (c :: rest) = c :: List.zipWith (fun a b => a - b) rest (c :: rest) := by
  apply List.ext_getElem
  · simp [perStarOf, List.length_zipWith]
  · intro i h1 h2
    rcases i with _ | i
    · simp [perStarOf]
    · simp only [perStarOf, List.getElem_map, List.getElem_range, List.getElem_cons_succ,
        List.getElem_zipWith]
      have hi : i + 1 < (c :: rest).length := by
        simpa [perStarOf] using h1
      have hi' : i < rest.length := by
        simp at hi
        omega
      simp only [if_neg (Nat.succ_ne_zero i), Nat.add_sub_cancel]
      rw [List.getD_eq_getElem _ _ hi, List.getD_eq_getElem _ _ (by omega : i < (c :: rest).length)]
      simp

theorem perStarOf_getD {cum : List ℤ} {i : ℕ} (h : i < cum.length) :
    (perStarOf cum).getD i 0 =
      if i = 0 then cum.getD 0 0 else cum.getD i 0 - cum.getD (i - 1) 0 := by
  have hl : i < (perStarOf cum).length := by rw [perStarOf_length]; exact h
  rw [List.getD_eq_getElem _ _ hl]
  simp only [perStarOf, List.getElem_map, List.getElem_range]
  rcases i with _ | i <;> simp

/-- The deltas sum back to the last cumulative value. -/
theorem sum_zipWith_sub (c : ℤ) (rest : List ℤ) :
    c + (List.zipWith (fun a b => a - b) rest (c :: rest)).sum =
      (c :: rest).getLast?.getD 0 := by
  induction rest generalizing c with
  | nil => simp
  | cons b rs ih =>
    rw [List.getLast?_cons_cons]
    rw [← ih b]
    simp only [List.zipWith_cons_cons, List.sum_cons]
    ring

theorem sum_perStarOf (cum : List ℤ) (h : cum ≠ []) :
    cum.getLast? = some (perStarOf cum).sum := by
  cases cum with
  | nil => exact absurd rfl h
  | cons c rest =>
    rw [perStarOf_cons, List.sum_cons, sum_zipWith_sub]
    cases hq : (c :: rest).getLast? with
    | none => simp at hq
    | some v => simp

/-- Strict increase of the cumulative list is equivalent to positivity
of the later deltas. -/
theorem chain_lt_iff_deltas_aux (c : ℤ) (rest : List ℤ) :
    List.Chain' (· < ·) (c :: rest) ↔
      ∀ x ∈ List.zipWith (fun a b => a - b) rest (c :: rest), 0 < x := by
  induction rest generalizing c with
  | nil => simp
  | cons b rs ih =>
    rw [List.chain'_cons, ih b]
    simp only [List.zipWith_cons_cons, List.mem_cons]
    constructor
    · rintro ⟨h1, h2⟩ x (rfl | hx)
      · omega
      · exact h2 x hx
    · intro hh
      refine ⟨by have := hh (b - c) (Or.inl rfl); omega, ?_⟩
      intro x hx
      exact hh x (Or.inr hx)

theorem chain_lt_iff_deltas (cum : List ℤ) :
    List.Chain' (· < ·) cum ↔ ∀ x ∈ (perStarOf cum).drop 1, 0 < x := by
  cases cum with
  | nil => simp [perStarOf]
  | cons c rest =>
    rw [perStarOf_cons]
    simp only [List.drop_succ_cons, List.drop_zero]
    exact chain_lt_iff_deltas_aux c rest

/-! ### C9: running sums of the blueprint requirements -/

theorem accumFrom_length (a : ℤ) (l : List ℤ) :
    (accumFrom a l).length = l.length := by
  induction l generalizing a with
  | nil => rfl
  | cons x xs ih => simp [accumFrom, ih]

theorem accumFrom_getD (a : ℤ) (l : List ℤ) (i : ℕ) (h : i < l.length) :
    (accumFrom a l).getD i 0 = a + (l.take (i + 1)).sum := by
  induction l generalizing a i with
  | nil => simp at h
  | cons x xs ih =>
    rcases i with _ | i
    · simp [accumFrom]
    · simp only [accumFrom, List.getD_cons_succ, List.take_succ_cons, List.sum_cons]
      rw [ih (a + x) i (by simpa using h)]
      ring

theorem accumFrom_chain_le (a : ℤ) (l : List ℤ) (h : ∀ x ∈ l, 0 ≤ x) :
    List.Chain' (· ≤ ·) (accumFrom a l) := by
  induction l generalizing a with
  | nil => simp [accumFrom]
  | cons x xs ih =>
    simp only [accumFrom]
    rw [List.chain'_cons']
    refine ⟨?_, ih (a + x) (fun y hy => h y (List.mem_cons_of_mem _ hy))⟩
    intro y hy
    cases xs with
    | nil => simp [accumFrom] at hy
    | cons z zs =>
      simp only [accumFrom, List.head?_cons, Option.mem_def, Option.some.injEq] at hy
      have hz : (0 : ℤ) ≤ z := h z (by simp)
      omega

/-- The requirements extracted by `extract_bp_from_two_lines` are
integer values of digit runs, hence non-negative. -/
theorem extract_bp_nonneg {l1 : List Char} {l2 : Option (List Char)}
    {reqs : List ℤ} {total : Option ℤ}
    (h : extract_bp_from_two_lines l1 l2 = some (reqs, total)) :
    ∀ x ∈ reqs, 0 ≤ x := by
  unfold extract_bp_from_two_lines at h
  split at h
  · rename_i r heq
    simp only [Option.some.injEq] at h
    obtain ⟨rfl, -⟩ := Prod.mk.injEq .. ▸ h
    rw [Option.map_eq_some'] at heq
    obtain ⟨gs, -, rfl⟩ := heq
    intro x hx
    rw [List.mem_map] at hx
    obtain ⟨g, -, rfl⟩ := hx
    exact Int.ofNat_nonneg _
  · exact absurd h (by simp)

theorem bpSection_nonneg {ls : List (List Char)} {reqs : List ℤ}
    {total : Option ℤ} {k : Bool}
    (h : bpSection ls = some (reqs, total, k)) : ∀ x ∈ reqs, 0 ≤ x := by
  induction ls with
  | nil => simp [bpSection] at h
  | cons l rest ih =>
    unfold bpSection at h
    split at h
    · split at h
      · rename_i hcond reqs' total' hex
        simp only [Option.some.injEq, Prod.mk.injEq] at h
        obtain ⟨rfl, -, -⟩ := h
        exact extract_bp_nonneg hex
      · exact ih h
    · exact ih h

/-- C5 (amended): for every successful parse with non-empty
`upgrade_cumulative`, that list is strictly increasing if and only if
every element of `upgrade_per_star` after the first is positive; the
parser enforces no monotonicity of its own (see the counterexample). -/
theorem c5_increasing_iff_deltas (t : String) (id : ℤ) (car : CarRecord)
    (h : parseMeiPage t id = .ok car) (hne : car.upgrade_cumulative ≠ []) :
    List.Chain' (· < ·) car.upgrade_cumulative ↔
      ∀ x ∈ car.upgrade_per_star.drop 1, 0 < x := by
  obtain ⟨iCls, nameLine, starLine, entries, totals, upAll,
    h1, h2, h3, h4, h5, h6, h7, hcar⟩ := parseLines_ok_inv h
  subst hcar
  have hps : (mkCar (toLines t.data) id iCls nameLine starLine entries totals upAll).upgrade_per_star =
      perStarOf (mkCar (toLines t.data) id iCls nameLine starLine entries totals upAll).upgrade_cumulative := rfl
  rw [hps]
  exact chain_lt_iff_deltas _

/-- C5 witness: on a page with increasing totals the equivalence is
inhabited on the positive side. -/
theorem c5_increasing_witness :
    ∃ car, parseMeiPage c5wText 60 = .ok car ∧ car.upgrade_cumulative ≠ [] ∧
      (List.Chain' (· < ·) car.upgrade_cumulative ↔
        ∀ x ∈ car.upgrade_per_star.drop 1, 0 < x) := by
  cases hh : parseMeiPage c5wText 60 with
  | ok car =>
    have hv : (parseMeiPage c5wText 60).map (fun c => c.upgrade_cumulative) =
        .ok [5, 8] := by rfl
    rw [hh] at hv
    simp only [Except.map, Except.ok.injEq] at hv
    refine ⟨car, rfl, by simp [hv], c5_increasing_iff_deltas c5wText 60 car hh (by simp [hv])⟩
  | error e =>
    have hOk : (parseMeiPage c5wText 60).isOk = true := by rfl
    rw [hh] at hOk
    simp [Except.isOk, Except.toBool] at hOk

/-- C6: for every successful parse with non-empty `upgrade_cumulative`,
`upgrade_per_star` has the same length, starts with the first cumulative
value, continues with the successive differences, and sums to the last
cumulative value. -/
theorem c6_per_star_deltas (t : String) (id : ℤ) (car : CarRecord)
    (h : parseMeiPage t id = .ok car) (hne : car.upgrade_cumulative ≠ []) :
    car.upgrade_per_star.length = car.upgrade_cumulative.length ∧
    car.upgrade_per_star.getD 0 0 = car.upgrade_cumulative.getD 0 0 ∧
    (∀ i, 1 ≤ i → i < car.upgrade_cumulative.length →
      car.upgrade_per_star.getD i 0 =
        car.upgrade_cumulative.getD i 0 - car.upgrade_cumulative.getD (i - 1) 0) ∧
    car.upgrade_cumulative.getLast? = some car.upgrade_per_star.sum := by
  obtain ⟨iCls, nameLine, starLine, entries, totals, upAll,
    h1, h2, h3, h4, h5, h6, h7, hcar⟩ := parseLines_ok_inv h
  subst hcar
  have hps : (mkCar (toLines t.data) id iCls nameLine starLine entries totals upAll).upgrade_per_star =
      perStarOf (mkCar (toLines t.data) id iCls nameLine starLine entries totals upAll).upgrade_cumulative := rfl
  rw [hps]
  refine ⟨perStarOf_length _, ?_, ?_, sum_perStarOf _ hne⟩
  · cases hc : (mkCar (toLines t.data) id iCls nameLine starLine entries totals upAll).upgrade_cumulative with
    | nil => exact absurd hc hne
    | cons c rest => rw [perStarOf_getD (by simp [hc])]; simp
  · intro i hi1 hi2
    rw [perStarOf_getD hi2, if_neg (by omega : ¬ i = 0)]

/-- C6 witness: the delta relations on a concrete page. -/
theorem c6_per_star_witness :
    ∃ car, parseMeiPage c5wText 61 = .ok car ∧ car.upgrade_cumulative ≠ [] ∧
      car.upgrade_per_star.length = car.upgrade_cumulative.length ∧
      car.upgrade_cumulative.getLast? = some car.upgrade_per_star.sum := by
  cases hh : parseMeiPage c5wText 61 with
  | ok car =>
    have hv : (parseMeiPage c5wText 61).map (fun c => c.upgrade_cumulative) =
        .ok [5, 8] := by rfl
    rw [hh] at hv
    simp only [Except.map, Except.ok.injEq] at hv
    obtain ⟨hlen, -, -, hsum⟩ :=
      c6_per_star_deltas c5wText 61 car hh (by simp [hv])
    exact ⟨car, rfl, by simp [hv], hlen, hsum⟩
  | error e =>
    have hOk : (parseMeiPage c5wText 61).isOk = true := by rfl
    rw [hh] at hOk
    simp [Except.isOk, Except.toBool] at hOk

/-- C9: for every successful parse with non-empty `bp_requirements`,
`bp_cumulative` has the same length, `bp_cumulative[i]` is the sum of
the first `i+1` requirements, and `bp_cumulative` is non-decreasing. -/
theorem c9_bp_cumulative (t : String) (id : ℤ) (car : CarRecord)
    (h : parseMeiPage t id = .ok car) (hne : car.bp_requirements ≠ []) :
    car.bp_cumulative.length = car.bp_requirements.length ∧
    (∀ i, i < car.bp_requirements.length →
      car.bp_cumulative.getD i 0 = (car.bp_requirements.take (i + 1)).sum) ∧
    List.Chain' (· ≤ ·) car.bp_cumulative := by
  obtain ⟨iCls, nameLine, starLine, entries, totals, upAll,
    h1, h2, h3, h4, h5, h6, h7, hcar⟩ := parseLines_ok_inv h
  subst hcar
  cases hb : bpSection (toLines t.data) with
  | none =>
    have : (mkCar (toLines t.data) id iCls nameLine starLine entries totals upAll).bp_requirements = [] := by
      simp only [mkCar]
      rw [hb]
    exact absurd this hne
  | some rtk =>
    obtain ⟨reqs, total, key⟩ := rtk
    have hreq : (mkCar (toLines t.data) id iCls nameLine starLine entries totals upAll).bp_requirements = reqs := by
      simp only [mkCar]
      rw [hb]
    have hcum : (mkCar (toLines t.data) id iCls nameLine starLine entries totals upAll).bp_cumulative =
        pyAccumulate reqs := by
      simp only [mkCar]
      rw [hb]
    rw [hreq, hcum]
    have hnn := bpSection_nonneg hb
    refine ⟨accumFrom_length 0 reqs, ?_, accumFrom_chain_le 0 reqs hnn⟩
    intro i hi
    rw [pyAccumulate, accumFrom_getD 0 reqs i hi]
    ring

/-- C9 witness: running sums on a concrete page with blueprint
requirements `[5, 8, 30]`. -/
theorem c9_bp_cumulative_witness :
    ∃ car, parseMeiPage c8aText 40 = .ok car ∧ car.bp_requirements ≠ [] ∧
      car.bp_cumulative.length = car.bp_requirements.length ∧
      List.Chain' (· ≤ ·) car.bp_cumulative := by
  cases hh : parseMeiPage c8aText 40 with
  | ok car =>
    have hv : (parseMeiPage c8aText 40).map (fun c => c.bp_requirements) =
        .ok [5, 8, 30] := by rfl
    rw [hh] at hv
    simp only [Except.map, Except.ok.injEq] at hv
    obtain ⟨hlen, -, hch⟩ :=
      c9_bp_cumulative c8aText 40 car hh (by simp [hv])
    exact ⟨car, rfl, by simp [hv], hlen, hch⟩
  | error e =>
    have hOk : (parseMeiPage c8aText 40).isOk = true := by rfl
    rw [hh] at hOk
    simp [Except.isOk, Except.toBool] at hOk

/-! ### C7, C10: the best-rank dictionary -/

/-- Folding from a `some` accumulator stays `some` and never decreases
the rank. -/
theorem bestFold_mono (sc : ℕ) (l : List StatEntry) (c : StatEntry) :
    ∃ c', l.foldl (fun acc e => if e.label.length = sc then bestStep acc e else acc)
        (some c) = some c' ∧ c.rank ≤ c'.rank := by
  induction l generalizing c with
  | nil => exact ⟨c, rfl, le_refl _⟩
  | cons a as ih =>
    simp only [List.foldl_cons]
    by_cases ha : a.label.length = sc
    · rw [if_pos ha]
      simp only [bestStep]
      split
      · obtain ⟨c', hc', hle⟩ := ih a
        rename_i hgt
        exact ⟨c', hc', by omega⟩
      · exact ih c
    · rw [if_neg ha]
      exact ih c

/-- Any entry produced by the fold is the accumulator or a group member. -/
theorem bestFold_provenance (sc : ℕ) (l : List StatEntry) :
    ∀ (acc : Option StatEntry) (e : StatEntry),
      l.foldl (fun acc e => if e.label.length = sc then bestStep acc e else acc)
        acc = some e →
      acc = some e ∨ (e ∈ l ∧ e.label.length = sc) := by
  induction l with
  | nil =>
    intro acc e h
    exact Or.inl h
  | cons a as ih =>
    intro acc e h
    simp only [List.foldl_cons] at h
    rcases ih _ _ h with hstep | ⟨hm, hsc⟩
    · by_cases ha : a.label.length = sc
      · rw [if_pos ha] at hstep
        cases acc with
        | none =>
          simp only [bestStep, Option.some.injEq] at hstep
          exact Or.inr ⟨by rw [← hstep]; exact List.mem_cons_self a as, by rw [← hstep]; exact ha⟩
        | some c =>
          simp only [bestStep] at hstep
          split at hstep
          · simp only [Option.some.injEq] at hstep
            exact Or.inr ⟨by rw [← hstep]; exact List.mem_cons_self a as, by rw [← hstep]; exact ha⟩
          · exact Or.inl hstep
      · rw [if_neg ha] at hstep
        exact Or.inl hstep
    · exact Or.inr ⟨List.mem_cons_of_mem a hm, hsc⟩

/-- The fold result dominates the rank of every group member. -/
theorem bestFold_max (sc : ℕ) (l : List StatEntry) :
    ∀ (acc : Option StatEntry) (e : StatEntry),
      l.foldl (fun acc e => if e.label.length = sc then bestStep acc e else acc)
        acc = some e →
      ∀ e' ∈ l, e'.label.length = sc → e'.rank ≤ e.rank := by
  induction l with
  | nil =>
    intro acc e h e' he'
    simp at he'
  | cons a as ih =>
    intro acc e h e' he' hsc'
    simp only [List.foldl_cons] at h
    rcases List.mem_cons.mp he' with rfl | hm
    · rw [if_pos hsc'] at h
      have hstep : ∃ c₁, bestStep acc e' = some c₁ ∧ e'.rank ≤ c₁.rank := by
        cases acc with
        | none => exact ⟨e', rfl, le_refl _⟩
        | some c =>
          simp only [bestStep]
          split
          · exact ⟨e', rfl, le_refl _⟩
          · rename_i hng
            exact ⟨c, rfl, by omega⟩
      obtain ⟨c₁, hc₁, hle⟩ := hstep
      rw [hc₁] at h
      obtain ⟨c', hc', hle'⟩ := bestFold_mono sc as c₁
      rw [h] at hc'
      cases hc'
      omega
    · exact ih _ _ h e' hm hsc'

/-- The fold yields `none` exactly when the accumulator is `none` and no
list element belongs to the group. -/
theorem bestFold_none (sc : ℕ) (l : List StatEntry) :
    ∀ (acc : Option StatEntry),
      l.foldl (fun acc e => if e.label.length = sc then bestStep acc e else acc)
        acc = none ↔
      (acc = none ∧ ∀ e' ∈ l, e'.label.length ≠ sc) := by
  induction l with
  | nil =>
    intro acc
    simp
  | cons a as ih =>
    intro acc
    simp only [List.foldl_cons]
    rw [ih]
    constructor
    · rintro ⟨hstep, hrest⟩
      by_cases ha : a.label.length = sc
      · rw [if_pos ha] at hstep
        cases acc <;> simp [bestStep] at hstep
        · rename_i c
          split at hstep <;> cases hstep
      · rw [if_neg ha] at hstep
        exact ⟨hstep, fun e' he' => by
          rcases List.mem_cons.mp he' with rfl | hm
          · exact ha
          · exact hrest e' hm⟩
    · rintro ⟨rfl, hall⟩
      have ha : a.label.length ≠ sc := hall a (List.mem_cons_self a as)
      rw [if_neg ha]
      exact ⟨rfl, fun e' he' => hall e' (List.mem_cons_of_mem a he')⟩

/-- C7: `best_by_star` groups the captured star-kind entries by the
glyph-run length of their label and, per star count, retains exactly one
entry whose rank dominates the whole group (lower-rank duplicates are
dropped, not averaged or summed); it is empty for a star count exactly
when no entry has that glyph count. -/
theorem c7_best_by_star (l : List StatEntry) (sc : ℕ) :
    (∀ e, bestByStar l sc = some e →
      e ∈ l ∧ e.label.length = sc ∧
      ∀ e' ∈ l, e'.label.length = sc → e'.rank ≤ e.rank) ∧
    (bestByStar l sc = none ↔ ∀ e' ∈ l, e'.label.length ≠ sc) := by
  constructor
  · intro e h
    rcases bestFold_provenance sc l none e h with hc | ⟨hm, hsc⟩
    · cases hc
    · exact ⟨hm, hsc, bestFold_max sc l none e h⟩
  · unfold bestByStar
    rw [bestFold_none sc l none]
    simp

/-- C7 witness: on a two-entry group for the same star, the aggregation
keeps the higher-rank entry, whose rank dominates both observations. -/
theorem c7_best_by_star_witness :
    bestByStar [⟨"star".data, ['⭐'], 728, 2, 2, 2, 2⟩,
                ⟨"star".data, ['⭐'], 600, 9, 9, 9, 9⟩] 1 =
      some ⟨"star".data, ['⭐'], 728, 2, 2, 2, 2⟩ ∧
    (⟨"star".data, ['⭐'], 728, 2, 2, 2, 2⟩ : StatEntry).label.length = 1 ∧
    (⟨"star".data, ['⭐'], 600, 9, 9, 9, 9⟩ : StatEntry).rank ≤
      (⟨"star".data, ['⭐'], 728, 2, 2, 2, 2⟩ : StatEntry).rank := by
  have h := (c7_best_by_star
    [⟨"star".data, ['⭐'], 728, 2, 2, 2, 2⟩,
     ⟨"star".data, ['⭐'], 600, 9, 9, 9, 9⟩] 1).1
    ⟨"star".data, ['⭐'], 728, 2, 2, 2, 2⟩ (by rfl)
  exact ⟨by rfl, h.2.1, h.2.2 _ (by simp) rfl⟩

/-- C10: the strict greater-than comparison never replaces an equal-rank
incumbent, so a later equal-rank duplicate observation for the same star
leaves the aggregation unchanged (the first-encountered entry wins). -/
theorem c10_equal_rank_first :
    (∀ (c e : StatEntry), e.rank = c.rank → bestStep (some c) e = some c) ∧
    (∀ (l1 l2 l3 : List StatEntry) (e1 e2 : StatEntry) (sc : ℕ),
      e1.label.length = sc → e2.label.length = sc → e2.rank = e1.rank →
      bestByStar (l1 ++ e1 :: (l2 ++ e2 :: l3)) sc =
        bestByStar (l1 ++ e1 :: (l2 ++ l3)) sc) := by
  constructor
  · intro c e he
    simp only [bestStep, if_neg (by omega : ¬ e.rank > c.rank)]
  · intro l1 l2 l3 e1 e2 sc h1 h2 h12
    unfold bestByStar
    rw [List.foldl_append, List.foldl_append, List.foldl_cons, List.foldl_cons,
      List.foldl_append, List.foldl_append]
    have hstep : ∃ c₁,
        (if e1.label.length = sc
          then bestStep (List.foldl (fun acc e => if e.label.length = sc then bestStep acc e else acc) none l1) e1
          else List.foldl (fun acc e => if e.label.length = sc then bestStep acc e else acc) none l1) = some c₁ ∧
        e1.rank ≤ c₁.rank := by
      rw [if_pos h1]
      cases List.foldl (fun acc e => if e.label.length = sc then bestStep acc e else acc) none l1 with
      | none => exact ⟨e1, rfl, le_refl _⟩
      | some c =>
        simp only [bestStep]
        split
        · exact ⟨e1, rfl, le_refl _⟩
        · rename_i hng
          exact ⟨c, rfl, by omega⟩
    obtain ⟨c₁, hc₁, hle₁⟩ := hstep
    rw [hc₁]
    obtain ⟨c₂, hc₂, hle₂⟩ := bestFold_mono sc l2 c₁
    rw [hc₂, List.foldl_cons]
    rw [if_pos h2]
    rw [show bestStep (some c₂) e2 = some c₂ by
      simp only [bestStep, if_neg (by omega : ¬ e2.rank > c₂.rank)]]

/-- C10 witness: a later equal-rank duplicate is dropped. -/
theorem c10_equal_rank_witness :
    bestStep (some ⟨"star".data, ['⭐'], 728, 0, 0, 0, 0⟩)
        ⟨"star".data, ['⭐'], 728, 1, 1, 1, 1⟩ =
      some ⟨"star".data, ['⭐'], 728, 0, 0, 0, 0⟩ ∧
    bestByStar [⟨"star".data, ['⭐'], 728, 0, 0, 0, 0⟩,
                ⟨"star".data, ['⭐'], 728, 1, 1, 1, 1⟩] 1 =
      bestByStar [⟨"star".data, ['⭐'], 728, 0, 0, 0, 0⟩] 1 := by
  constructor
  · exact c10_equal_rank_first.1 _ _ rfl
  · exact c10_equal_rank_first.2 [] [] []
      ⟨"star".data, ['⭐'], 728, 0, 0, 0, 0⟩
      ⟨"star".data, ['⭐'], 728, 1, 1, 1, 1⟩ 1 rfl rfl rfl

/-! ### C3: only the premium-part price failure is caught -/

/-- C3 (amended): a `parse_number` failure on the premium-part total
cost (the second line after the `Epics:` anchor) is caught: the record,
when the page parses at all, keeps the default `epic_price = 0` and
parsing continues. (A failure on the `Total:` token, in contrast, is
fatal: see the counterexample.) -/
theorem c3_epic_format_nonfatal (t : String) (id : ℤ) (i : ℕ) (l2 : List Char)
    (hfind : (toLines t.data).findIdx? (fun l => litAt "Epics:".data l) = some i)
    (hl2 : (toLines t.data)[i + 2]? = some l2)
    (hbad : parse_number l2 = none) :
    ∀ car, parseMeiPage t id = .ok car → car.epic_price = .int 0 := by
  intro car h
  obtain ⟨iCls, nameLine, starLine, entries, totals, upAll,
    h1, h2, h3, h4, h5, h6, h7, hcar⟩ := parseLines_ok_inv h
  subst hcar
  have hp : (mkCar (toLines t.data) id iCls nameLine starLine entries totals upAll).epic_price =
      (epicsSection (toLines t.data)).2 := rfl
  rw [hp]
  unfold epicsSection
  rw [hfind]
  simp only [hl2, hbad]

/-- C3 witness: a concrete page with a malformed premium price line
parses successfully with `epic_price = 0`. -/
theorem c3_epic_format_witness :
    ∃ car, parseMeiPage c3wText 30 = .ok car ∧ car.epic_price = .int 0 := by
  cases hh : parseMeiPage c3wText 30 with
  | ok car =>
    exact ⟨car, rfl,
      c3_epic_format_nonfatal c3wText 30 3 "bad,.".data rfl rfl rfl car hh⟩
  | error e =>
    have hOk : (parseMeiPage c3wText 30).isOk = true := by rfl
    rw [hh] at hOk
    simp [Except.isOk, Except.toBool] at hOk

/-! ### C4: when exactly the missing-section failure is raised -/

theorem collectStats_error_format :
    ∀ (ls : List (List Char)) (acc : List PyNum) (e : ParseErr),
      collectStats ls acc = .error e → ∃ tok, e = .format tok := by
  intro ls
  induction ls with
  | nil =>
    intro acc e h
    simp [collectStats] at h
  | cons l rest ih =>
    intro acc e h
    simp only [collectStats] at h
    split at h
    · cases h
    · split at h
      · cases h
      · split at h
        · split at h
          · exact ih _ _ h
          · cases h
            exact ⟨_, rfl⟩
        · split at h
          · split at h
            · exact ih _ _ h
            · cases h
              exact ⟨_, rfl⟩
          · exact ih _ _ h

theorem statScanF_error_format :
    ∀ (fuel : ℕ) (ls : List (List Char)) (e : ParseErr),
      statScanF fuel ls = .error e → ∃ tok, e = .format tok := by
  intro fuel
  induction fuel with
  | zero =>
    intro ls e h
    cases ls <;> simp [statScanF] at h
  | succ fuel ih =>
    intro ls e h
    cases ls with
    | nil => simp [statScanF] at h
    | cons l rest =>
      simp only [statScanF] at h
      split at h
      · exact ih _ _ h
      · split at h
        · cases h
          exact collectStats_error_format _ _ _ (by assumption)
        · split at h
          · split at h
            · cases h
              exact ih _ _ (by assumption)
            · cases h
          · exact ih _ _ h

theorem upgradeScan_error_format :
    ∀ (ls : List (List Char)) (inb : Bool) (acc : List ℤ) (e : ParseErr),
      upgradeScan inb acc ls = .error e → ∃ tok, e = .format tok := by
  intro ls
  induction ls with
  | nil =>
    intro inb acc e h
    simp [upgradeScan] at h
  | cons l rest ih =>
    intro inb acc e h
    simp only [upgradeScan] at h
    split at h
    · exact ih _ _ _ h
    · split at h
      · split at h
        · split at h
          · split at h
            · exact ih _ _ _ h
            · cases h
              exact ⟨_, rfl⟩
          · exact ih _ _ _ h
        · exact ih _ _ _ h
      · exact ih _ _ _ h

theorem totalSection_error_format {ls : List (List Char)} {e : ParseErr}
    (h : totalSection ls = .error e) : ∃ tok, e = .format tok := by
  unfold totalSection at h
  split at h
  · cases h
  · split at h
    · cases h
    · split at h
      · cases h
      · cases h
        exact ⟨_, rfl⟩

/-- C4 (amended): the parse fails with a `MissingSectionError` exactly
when a required anchor is absent in the order the parser checks them —
no class line or the first class line is the last normalized line, else
no star-glyph line, else a stat scan that raises no format error and
captures no complete block. Soft omissions never produce this failure. -/
theorem c4_missing_section_iff (t : String) (id : ℤ) :
    (∃ e, parseMeiPage t id = .error e ∧ e.isMissingSection = true) ↔
      ((toLines t.data).findIdx? isClassLine = none ∨
       (∃ i, (toLines t.data).findIdx? isClassLine = some i ∧
         (toLines t.data)[i + 1]? = none) ∨
       ((∃ i l, (toLines t.data).findIdx? isClassLine = some i ∧
           (toLines t.data)[i + 1]? = some l) ∧
         (toLines t.data).find? isStarLine = none) ∨
       ((∃ i l, (toLines t.data).findIdx? isClassLine = some i ∧
           (toLines t.data)[i + 1]? = some l) ∧
        (∃ sl, (toLines t.data).find? isStarLine = some sl) ∧
        statScan (toLines t.data) = .ok [])) := by
  unfold parseMeiPage parseLines
  cases h1 : (toLines t.data).findIdx? isClassLine with
  | none => simp [ParseErr.isMissingSection]
  | some i =>
    cases h2 : (toLines t.data)[i + 1]? with
    | none =>
      simp only [h2, ParseErr.isMissingSection]
      simp [List.getElem?_eq_none_iff.mp h2, ParseErr.isMissingSection]
    | some nameLine =>
      have hb : i + 1 < (toLines t.data).length := by
        by_contra hc
        rw [List.getElem?_eq_none_iff.mpr (by omega)] at h2
        cases h2
      cases h3 : (toLines t.data).find? isStarLine with
      | none => simp [h2, h3, hb, ParseErr.isMissingSection]
      | some starLine =>
        cases h4 : statScan (toLines t.data) with
        | error e =>
          obtain ⟨tok, rfl⟩ := statScanF_error_format _ _ _ h4
          simp [h2, h3, h4, hb, ParseErr.isMissingSection]
        | ok entries =>
          cases entries with
          | nil => simp [h2, h3, h4, hb, ParseErr.isMissingSection]
          | cons e0 tail =>
            cases h5 : upgradeScan false [] (toLines t.data) with
            | error e =>
              obtain ⟨tok, rfl⟩ := upgradeScan_error_format _ _ _ _ h5
              simp [h2, h3, h4, h5, hb, ParseErr.isMissingSection]
            | ok totals =>
              cases h6 : totalSection (toLines t.data) with
              | error e =>
                obtain ⟨tok, rfl⟩ := totalSection_error_format h6
                simp [h2, h3, h4, h5, h6, hb, ParseErr.isMissingSection]
              | ok upAll =>
                simp [h2, h3, h4, h5, h6, hb]

/-- C4 witness: a page without a star-glyph line fails with the
missing-section classification via the equivalence. -/
theorem c4_missing_section_witness :
    ∃ e, parseMeiPage c4wText 20 = .error e ∧ e.isMissingSection = true := by
  refine (c4_missing_section_iff c4wText 20).mpr ?_
  right; right; left
  exact ⟨⟨0, "Car".data, rfl, rfl⟩, rfl⟩

/-! ### Adequacy of the structural fuel of the stat scan -/

/-- The metric collector only consumes lines: the unconsumed remainder
is never longer than its input. -/
theorem collectStats_rest_length :
    ∀ (ls : List (List Char)) (acc : List PyNum) s r,
      collectStats ls acc = .ok (s, r) → r.length ≤ ls.length := by
  intro ls
  induction ls with
  | nil =>
    intro acc s r h
    simp only [collectStats] at h
    cases h
    simp
  | cons a as ih =>
    intro acc s r h
    simp only [collectStats] at h
    split at h
    · cases h; simp
    · split at h
      · cases h; simp
      · split at h
        · split at h
          · exact le_trans (ih _ _ _ h) (by simp)
          · cases h
        · split at h
          · split at h
            · exact le_trans (ih _ _ _ h) (by simp)
            · cases h
          · exact le_trans (ih _ _ _ h) (by simp)

/-- The fuel of `statScanF` is irrelevant as long as it dominates the
number of remaining lines; in particular the fuel `ls.length` used by
`statScan` never runs out. -/
theorem statScanF_congr :
    ∀ (f1 f2 : ℕ) (ls : List (List Char)),
      ls.length ≤ f1 → ls.length ≤ f2 → statScanF f1 ls = statScanF f2 ls := by
  intro f1
  induction f1 with
  | zero =>
    intro f2 ls h1 h2
    have : ls = [] := by
      cases ls with
      | nil => rfl
      | cons a as => simp at h1
    subst this
    cases f2 <;> rfl
  | succ f1 ih =>
    intro f2 ls h1 h2
    cases ls with
    | nil => cases f2 <;> rfl
    | cons l rest =>
      cases f2 with
      | zero => simp at h2
      | succ f2 =>
        simp only [statScanF]
        have hr : rest.length ≤ f1 := by simp at h1; omega
        have hr2 : rest.length ≤ f2 := by simp at h2; omega
        split
        · exact ih f2 rest hr hr2
        · split
          · rfl
          · rename_i label rank stats rest' hcol
            have hr' := collectStats_rest_length rest [] stats rest' hcol
            split
            · rw [ih f2 rest' (by omega) (by omega)]
            · exact ih f2 rest hr hr2

end Asphalt
